import Mathlib

/-!
Verification development for the aelus-aether-mcp repository.

The definitions below are a shallow embedding of the TypeScript source:

* the centralized HTTP error middleware (`formatErrorResponse`, `errorHandler`
  from `src/http/middleware/error.ts`),
* the Conductor admission control (modelled from the spec; the Conductor's
  implementation is not part of the provided sources),
* Reciprocal Rank Fusion (`fuse`, modelled from the spec; the fusion routine is
  not part of the provided sources),
* the Voyage embedding provider's `embedBatch` chunking/fallback logic
  (`src/semantic/providers/voyage-provider.ts`),
* the request-body validation middleware (`src/http/middleware/validation.ts`),
* `parseToolResult` (`src/http/mcp-sse-server.ts`),
* the Voyage re-ranker's static model limits (`VoyageReranker.getModelLimits`),
* `ProjectManager.updateProject` and `ProjectManager.removeRepository`
  (`src/core/project-manager.ts`), over a list-based model of the SQLite
  tables, including SQLite's `LIKE` matching semantics.

JavaScript-specific behaviour (truthiness of `""`/`0`/`undefined`, `||`
defaulting, `??` nullish coalescing) is made explicit by small helper
functions.
-/

/-! ## JavaScript value helpers -/

/-- JavaScript `o || d` for an optional string: `undefined` and `""` are falsy. -/
def jsOrStr (o : Option String) (d : String) : String :=
  match o with
  | some s => if s = "" then d else s
  | none => d

/-- JavaScript `o || d` for an optional number: `undefined` and `0` are falsy. -/
def jsOrNat (o : Option Nat) (d : Nat) : Nat :=
  match o with
  | some n => if n = 0 then d else n
  | none => d

/-- JavaScript truthiness of an optional string (`undefined` and `""` are falsy). -/
def strTruthy (o : Option String) : Bool :=
  match o with
  | some s => s ≠ ""
  | none => false

/-- JavaScript `o || null` for an optional string column value. -/
def orNullStr (o : Option String) : Option String :=
  if strTruthy o then o else none

/-! ## Error middleware (`src/http/middleware/error.ts`)

`ErrDetails` is a closed model of the `details` payloads that actually flow
through the middleware: opaque carried details, a Zod issue list (the
`{ errors }` object built by `validateBody`), the `{ stack, originalMessage }`
object built by the dev-mode default branch, and the worker-name/load payload
of an `AgentBusyError`. -/

inductive ErrDetails where
  | payload (s : String)
  | zodIssues (issues : List String)
  | devStack (stack : String) (originalMessage : String)
  | busy (agentName : String) (currentLoad : Nat)
deriving DecidableEq, Repr

/-- A JavaScript error value as seen by the middleware: the `ApiError` fields
plus the `instanceof` tags the handler tests (`AgentBusyError`, `HttpError`)
and the `errors` field read off a `ZodError`. -/
structure JsError where
  name : String
  message : String
  stack : String
  statusCode : Option Nat := none
  code : Option String := none
  details : Option ErrDetails := none
  errors : List String := []
  isAgentBusy : Bool := false
  isHttpError : Bool := false
deriving DecidableEq, Repr

/-- The JSON body produced by the middleware: `success` is always `false`;
`details` and `requestId` are present only when defined/truthy. -/
structure ErrorBody where
  success : Bool
  message : String
  code : String
  details : Option ErrDetails
  requestId : Option String
deriving DecidableEq, Repr

/-- `formatErrorResponse` from `src/http/middleware/error.ts`: body with
`message`, `code := error.code || error.name`, `details` if defined, and
`requestId` if truthy. -/
def formatErrorResponse (e : JsError) (requestId : Option String) : ErrorBody :=
  { success := false
    message := e.message
    code := jsOrStr e.code e.name
    details := e.details
    requestId := if strTruthy requestId then requestId else none }

/-- `errorHandler` from `src/http/middleware/error.ts` (status code and JSON
body; logging omitted). `isDev` is `process.env.NODE_ENV !== "production"`.
The synthesized errors built with `Object.assign(new Error(m), {...})` carry
name `"Error"`. -/
def errorHandler (err : JsError) (requestId : Option String) (isDev : Bool) :
    Nat × ErrorBody :=
  if err.isAgentBusy then
    (503, formatErrorResponse
      { name := "Error", message := err.message, stack := err.stack
        statusCode := some 503, code := some "AGENT_BUSY", details := err.details }
      requestId)
  else if err.isHttpError then
    (err.statusCode.getD 0, formatErrorResponse err requestId)
  else if err.name = "ValidationError" then
    (400, formatErrorResponse
      { name := "Error", message := err.message, stack := err.stack
        statusCode := some 400, code := some "VALIDATION_ERROR", details := err.details }
      requestId)
  else if err.name = "ZodError" then
    (400, { success := false, message := "Validation failed", code := "VALIDATION_ERROR"
            details := some (ErrDetails.zodIssues err.errors), requestId := requestId })
  else
    let statusCode := jsOrNat err.statusCode 500
    let errorMessage := if isDev || statusCode ≠ 500 then err.message else "Internal server error"
    let details := if isDev then some (ErrDetails.devStack err.stack err.message) else err.details
    (statusCode, formatErrorResponse
      { name := "Error", message := errorMessage, stack := err.stack
        statusCode := some statusCode, code := some (jsOrStr err.code err.name)
        details := details }
      requestId)

/-- Details contain a raw stack trace exactly when they are the dev-mode
`{ stack, originalMessage }` object. -/
def detailsHasStack : Option ErrDetails → Bool
  | some (ErrDetails.devStack _ _) => true
  | _ => false

/-- A response body contains a raw stack trace exactly when its details do. -/
def bodyHasStack (b : ErrorBody) : Bool :=
  detailsHasStack b.details

/-! ## Voyage re-ranker static model limits (`VoyageReranker.getModelLimits`) -/

/-- Static token/document limits of a rerank model. -/
structure ModelLimits where
  maxQueryTokens : Nat
  maxDocuments : Nat
  maxTotalTokens : Nat
deriving DecidableEq, Repr

/-- `VoyageReranker.getModelLimits`: the `switch` over the model name. -/
def getModelLimits (model : String) : ModelLimits :=
  if model = "rerank-2" ∨ model = "rerank-2-lite" then
    { maxQueryTokens := 2000, maxDocuments := 1000, maxTotalTokens := 300000 }
  else if model = "rerank-1" then
    { maxQueryTokens := 2000, maxDocuments := 1000, maxTotalTokens := 100000 }
  else if model = "rerank-lite-1" then
    { maxQueryTokens := 1000, maxDocuments := 1000, maxTotalTokens := 300000 }
  else
    { maxQueryTokens := 1000, maxDocuments := 1000, maxTotalTokens := 100000 }

/-- C6: `VoyageReranker.getModelLimits` returns (2000, 1000, 300000) for
`rerank-2` and `rerank-2-lite`, (2000, 1000, 100000) for `rerank-1`,
(1000, 1000, 300000) for `rerank-lite-1`, and the conservative defaults
(1000, 1000, 100000) for every other model name. -/
theorem getModelLimits_table :
    getModelLimits "rerank-2" = ⟨2000, 1000, 300000⟩
    ∧ getModelLimits "rerank-2-lite" = ⟨2000, 1000, 300000⟩
    ∧ getModelLimits "rerank-1" = ⟨2000, 1000, 100000⟩
    ∧ getModelLimits "rerank-lite-1" = ⟨1000, 1000, 300000⟩
    ∧ ∀ m : String, m ≠ "rerank-2" → m ≠ "rerank-2-lite" → m ≠ "rerank-1" →
        m ≠ "rerank-lite-1" → getModelLimits m = ⟨1000, 1000, 100000⟩ := by
  refine ⟨by decide, by decide, by decide, by decide, ?_⟩
  intro m h1 h2 h3 h4
  simp [getModelLimits, h1, h2, h3, h4]

/-- Witness for the default branch of `getModelLimits_table` at the concrete
model name `"gpt-rank"`. -/
theorem getModelLimits_table_witness :
    getModelLimits "gpt-rank" = ⟨1000, 1000, 100000⟩ :=
  getModelLimits_table.2.2.2.2 "gpt-rank" (by decide) (by decide) (by decide) (by decide)

/-! ## Conductor admission control -/

/-- Per-worker state: in-flight count, configured concurrency limit, cumulative
accepted/rejected counters (the spec's `WorkerState`). -/
structure WorkerState where
  name : String
  inFlight : Nat
  limit : Nat
  accepted : Nat
  rejected : Nat
deriving DecidableEq, Repr

/-- The payload an `AgentBusyError` rejection carries: worker name and current
load. -/
structure AgentBusyInfo where
  agentName : String
  currentLoad : Nat
deriving DecidableEq, Repr

/-- Outcome of submitting one operation to the Conductor for a worker. -/
inductive SubmitOutcome where
  | admitted
  | rejectedBusy (e : AgentBusyInfo)
deriving DecidableEq, Repr

/-- Modelled from the spec: the Conductor's admission control (the Conductor
implementation is not under `src/`). A submission is accepted only if the
worker's in-flight count is strictly below its configured limit, in which case
the in-flight count is incremented; otherwise the Conductor immediately returns
an `AgentBusyError` carrying the worker name and current load, without touching
the in-flight count. -/
def submit (w : WorkerState) : SubmitOutcome × WorkerState :=
  if w.inFlight < w.limit then
    (SubmitOutcome.admitted,
     { w with inFlight := w.inFlight + 1, accepted := w.accepted + 1 })
  else
    (SubmitOutcome.rejectedBusy ⟨w.name, w.inFlight⟩,
     { w with rejected := w.rejected + 1 })

/-- The `JsError` that an `AgentBusyError` rejection presents to the HTTP error
middleware (`err instanceof AgentBusyError` holds; `err.details` carries the
worker name and load). -/
def agentBusyJsError (e : AgentBusyInfo) : JsError :=
  { name := "AgentBusyError"
    message := "Agent " ++ e.agentName ++ " is busy"
    stack := ""
    details := some (ErrDetails.busy e.agentName e.currentLoad)
    isAgentBusy := true }

/-- C1: when a worker's in-flight count equals its configured limit, `submit`
rejects with an `AgentBusyError` carrying the worker name and current load, the
rejection leaves the in-flight count unchanged, and `errorHandler` maps the
error to HTTP 503 with code `AGENT_BUSY`, the busy details included in the
body. -/
theorem conductor_backpressure (w : WorkerState) (rid : Option String) (isDev : Bool)
    (h : w.inFlight = w.limit) :
    (submit w).1 = SubmitOutcome.rejectedBusy ⟨w.name, w.inFlight⟩
    ∧ (submit w).2.inFlight = w.inFlight
    ∧ (errorHandler (agentBusyJsError ⟨w.name, w.inFlight⟩) rid isDev).1 = 503
    ∧ (errorHandler (agentBusyJsError ⟨w.name, w.inFlight⟩) rid isDev).2.code = "AGENT_BUSY"
    ∧ (errorHandler (agentBusyJsError ⟨w.name, w.inFlight⟩) rid isDev).2.details
        = some (ErrDetails.busy w.name w.inFlight) := by
  have hnot : ¬ w.inFlight < w.limit := by omega
  refine ⟨?_, ?_, ?_, ?_, ?_⟩ <;>
    simp [submit, hnot, errorHandler, agentBusyJsError, formatErrorResponse, jsOrStr]

/-- Witness for `conductor_backpressure`: a worker with limit 2 and two
operations in flight. -/
theorem conductor_backpressure_witness :
    (submit ⟨"parser", 2, 2, 7, 1⟩).1
      = SubmitOutcome.rejectedBusy ⟨"parser", 2⟩
    ∧ (submit ⟨"parser", 2, 2, 7, 1⟩).2.inFlight = 2
    ∧ (errorHandler (agentBusyJsError ⟨"parser", 2⟩) (some "req_9") false).1 = 503 := by
  have h := conductor_backpressure ⟨"parser", 2, 2, 7, 1⟩ (some "req_9") false rfl
  exact ⟨h.1, h.2.1, h.2.2.1⟩

/-! ## C5: error responses — code, message, requestId, stack traces -/

/-- A concrete unrecognized error reaching the default branch of the
middleware: a plain `Error` with a stack trace and no status code. -/
def plainBoomError : JsError :=
  { name := "Error"
    message := "boom"
    stack := "Error: boom\n    at doWork (/app/dist/worker.js:10:3)" }

/-- C5 counterexample: with `NODE_ENV` unset (dev mode), the default branch of
`errorHandler` returns a body whose `details` contain the raw stack trace, so
the claim "no raw stack trace is included in the response body ... in every
environment mode" is false at this input. -/
theorem errorHandler_dev_stack_leak :
    bodyHasStack (errorHandler plainBoomError (some "req_1") true).2 = true
    ∧ (errorHandler plainBoomError (some "req_1") true).2.details
        = some (ErrDetails.devStack
            "Error: boom\n    at doWork (/app/dist/worker.js:10:3)" "boom") := by
  constructor <;> rfl

/-- C5 amended: every error response has `success = false`, a nonempty
human-readable message and a nonempty stable code, carries the requestId
whenever a nonempty one is available, and contains no raw stack trace whenever
`NODE_ENV` is `"production"` (`isDev = false`); in dev mode the default branch
deliberately includes the stack in `details`. Hypotheses: the incoming error
has a nonempty message and name, a requestId (when supplied) is nonempty, and
the incoming error's own details are not already a dev-stack object. -/
theorem errorHandler_response_contract (e : JsError) (rid : Option String) (isDev : Bool)
    (hmsg : e.message ≠ "") (hname : e.name ≠ "")
    (hrid : ∀ s, rid = some s → s ≠ "")
    (hdet : ∀ st om, e.details ≠ some (ErrDetails.devStack st om)) :
    (errorHandler e rid isDev).2.success = false
    ∧ (errorHandler e rid isDev).2.message ≠ ""
    ∧ (errorHandler e rid isDev).2.code ≠ ""
    ∧ (rid.isSome → (errorHandler e rid isDev).2.requestId = rid)
    ∧ (isDev = false → bodyHasStack (errorHandler e rid isDev).2 = false) := by
  have hridT : strTruthy rid = rid.isSome := by
    cases rid with
    | none => rfl
    | some s =>
      have hs : s ≠ "" := hrid s rfl
      simp [strTruthy, hs]
  have hcode : ∀ (c : Option String) (n : String), n ≠ "" → jsOrStr c n ≠ "" := by
    intro c n hn
    cases c with
    | none => simpa [jsOrStr] using hn
    | some s => by_cases hs : s = "" <;> simp [jsOrStr, hs, hn]
  have hstack : ∀ o : Option ErrDetails,
      (∀ st om, o ≠ some (ErrDetails.devStack st om)) → detailsHasStack o = false := by
    intro o ho
    cases o with
    | none => rfl
    | some d =>
      cases d with
      | payload s => rfl
      | zodIssues l => rfl
      | busy a c => rfl
      | devStack st om => exact absurd rfl (ho st om)
  by_cases hb : e.isAgentBusy = true
  · have heq : errorHandler e rid isDev
        = (503, formatErrorResponse
            ⟨"Error", e.message, e.stack, some 503, some "AGENT_BUSY", e.details, [],
              false, false⟩ rid) := by
      simp [errorHandler, hb]
    rw [heq]
    refine ⟨rfl, by simpa [formatErrorResponse] using hmsg, ?_, ?_, ?_⟩
    · simp [formatErrorResponse, jsOrStr]
    · intro hsome
      simp [formatErrorResponse, hridT, hsome]
    · intro _
      simp only [bodyHasStack, formatErrorResponse]
      exact hstack e.details hdet
  · by_cases hh : e.isHttpError = true
    · have heq : errorHandler e rid isDev = (e.statusCode.getD 0, formatErrorResponse e rid) := by
        simp [errorHandler, hb, hh]
      rw [heq]
      refine ⟨rfl, by simpa [formatErrorResponse] using hmsg, ?_, ?_, ?_⟩
      · simpa [formatErrorResponse] using hcode e.code e.name hname
      · intro hsome
        simp [formatErrorResponse, hridT, hsome]
      · intro _
        simp only [bodyHasStack, formatErrorResponse]
        exact hstack e.details hdet
    · by_cases hv : e.name = "ValidationError"
      · have heq : errorHandler e rid isDev
            = (400, formatErrorResponse
                ⟨"Error", e.message, e.stack, some 400, some "VALIDATION_ERROR", e.details, [],
                  false, false⟩ rid) := by
          simp [errorHandler, hb, hh, hv]
        rw [heq]
        refine ⟨rfl, by simpa [formatErrorResponse] using hmsg, ?_, ?_, ?_⟩
        · simp [formatErrorResponse, jsOrStr]
        · intro hsome
          simp [formatErrorResponse, hridT, hsome]
        · intro _
          simp only [bodyHasStack, formatErrorResponse]
          exact hstack e.details hdet
      · by_cases hz : e.name = "ZodError"
        · have heq : errorHandler e rid isDev
              = (400, { success := false, message := "Validation failed"
                        code := "VALIDATION_ERROR"
                        details := some (ErrDetails.zodIssues e.errors), requestId := rid }) := by
            simp [errorHandler, hb, hh, hv, hz]
          rw [heq]
          exact ⟨rfl, by simp, by simp, fun _ => rfl, fun _ => rfl⟩
        · have heq : errorHandler e rid isDev
              = (jsOrNat e.statusCode 500, formatErrorResponse
                  ⟨"Error",
                    (if isDev ∨ jsOrNat e.statusCode 500 ≠ 500
                      then e.message else "Internal server error"),
                    e.stack, some (jsOrNat e.statusCode 500),
                    some (jsOrStr e.code e.name),
                    (if isDev then some (ErrDetails.devStack e.stack e.message) else e.details),
                    [], false, false⟩ rid) := by
            simp [errorHandler, hb, hh, hv, hz]
          rw [heq]
          refine ⟨rfl, ?_, ?_, ?_, ?_⟩
          · simp only [formatErrorResponse]
            split
            · exact hmsg
            · simp
          · simp only [formatErrorResponse]
            exact hcode (some (jsOrStr e.code e.name)) "Error" (by simp)
          · intro hsome
            simp [formatErrorResponse, hridT, hsome]
          · intro hdev
            subst hdev
            simp only [bodyHasStack, formatErrorResponse]
            simpa using hstack e.details hdet

/-- Witness for `errorHandler_response_contract`: a production-mode storage
error with a status code. -/
theorem errorHandler_response_contract_witness :
    (errorHandler
      { name := "StorageError", message := "disk full", stack := "StorageError: disk full"
        statusCode := some 500, code := some "STORAGE_ERROR" } (some "req_2") false).2.success
        = false
    ∧ bodyHasStack (errorHandler
      { name := "StorageError", message := "disk full", stack := "StorageError: disk full"
        statusCode := some 500, code := some "STORAGE_ERROR" } (some "req_2") false).2 = false := by
  have h := errorHandler_response_contract
    { name := "StorageError", message := "disk full", stack := "StorageError: disk full"
      statusCode := some 500, code := some "STORAGE_ERROR" } (some "req_2") false
    (by decide) (by decide)
    (by intro s hs; cases hs; decide)
    (by intro st om h; cases h)
  exact ⟨h.1, h.2.2.2.2 rfl⟩

/-! ## Reciprocal Rank Fusion

Modelled from the spec: the hybrid-search fusion routine (`fuse`) is not part
of the provided sources. For each candidate appearing at 1-based rank `r` in a
list, it contributes `weight * 1 / (k + r)`; contributions are summed across
the structural and semantic lists; candidates are sorted by combined score
descending, ties broken by higher semantic raw score and then by entity id.
Scores are exact rationals. -/

/-- A ranked hit: entity id plus the retrieval source's raw score. -/
structure Hit where
  id : String
  score : ℚ
deriving DecidableEq, Repr

/-- One-based rank of a candidate id in a ranked list (`none` if absent). -/
def rankOf (hits : List Hit) (cid : String) : Option Nat :=
  match hits with
  | [] => none
  | h :: t => if h.id = cid then some 1 else (rankOf t cid).map (· + 1)

/-- Modelled from the spec: the contribution of one ranked list — weight times
`1 / (k + r)` at 1-based rank `r`, zero when the candidate is absent. -/
def listContribution (k w : ℚ) (hits : List Hit) (cid : String) : ℚ :=
  match rankOf hits cid with
  | some r => w * (1 / (k + r))
  | none => 0

/-- Modelled from the spec: the combined fused score — the weighted sum of the
structural and semantic reciprocal-rank contributions. -/
def fusedScore (k wS wSem : ℚ) (structural semantic : List Hit) (cid : String) : ℚ :=
  listContribution k wS structural cid + listContribution k wSem semantic cid

/-- The semantic raw score of a candidate (`none` if it has no semantic hit). -/
def semRaw (semantic : List Hit) (cid : String) : Option ℚ :=
  match semantic with
  | [] => none
  | h :: t => if h.id = cid then some h.score else semRaw t cid

/-- The semantic raw score of a candidate as a tie-break key, `⊥` when it has
no semantic hit (a candidate with any semantic hit tie-breaks above one with
none). -/
def semKey (semantic : List Hit) (cid : String) : WithBot ℚ :=
  match semRaw semantic cid with
  | some q => (q : WithBot ℚ)
  | none => ⊥

/-- Modelled from the spec: the fused ordering — combined score descending,
ties broken by higher semantic raw score, then by entity id. -/
def fuseRel (k wS wSem : ℚ) (structural semantic : List Hit) (a b : String) : Prop :=
  fusedScore k wS wSem structural semantic b < fusedScore k wS wSem structural semantic a
  ∨ (fusedScore k wS wSem structural semantic a = fusedScore k wS wSem structural semantic b
      ∧ (semKey semantic b < semKey semantic a
          ∨ (semKey semantic a = semKey semantic b ∧ a ≤ b)))

instance fuseRelDecidable (k wS wSem : ℚ) (structural semantic : List Hit) :
    DecidableRel (fuseRel k wS wSem structural semantic) := by
  intro a b
  unfold fuseRel
  infer_instance

/-- The candidate pool: every id appearing in either list, first occurrences
kept. -/
def fuseCandidates (structural semantic : List Hit) : List String :=
  (structural.map Hit.id ++ semantic.map Hit.id).eraseDups

/-- Modelled from the spec: `fuse` — sort the candidate ids by the fused
ordering. -/
def fuse (k wS wSem : ℚ) (structural semantic : List Hit) : List String :=
  (fuseCandidates structural semantic).insertionSort
    (fuseRel k wS wSem structural semantic)

theorem fuseRel_total (k wS wSem : ℚ) (structural semantic : List Hit) :
    ∀ a b, fuseRel k wS wSem structural semantic a b
      ∨ fuseRel k wS wSem structural semantic b a := by
  intro a b
  unfold fuseRel
  rcases lt_trichotomy (fusedScore k wS wSem structural semantic a)
      (fusedScore k wS wSem structural semantic b) with hs | hs | hs
  · exact Or.inr (Or.inl hs)
  · rcases lt_trichotomy (semKey semantic a) (semKey semantic b) with hr | hr | hr
    · exact Or.inr (Or.inr ⟨hs.symm, Or.inl hr⟩)
    · rcases le_total a b with hab | hab
      · exact Or.inl (Or.inr ⟨hs, Or.inr ⟨hr, hab⟩⟩)
      · exact Or.inr (Or.inr ⟨hs.symm, Or.inr ⟨hr.symm, hab⟩⟩)
    · exact Or.inl (Or.inr ⟨hs, Or.inl hr⟩)
  · exact Or.inl (Or.inl hs)

theorem fuseRel_trans (k wS wSem : ℚ) (structural semantic : List Hit) :
    ∀ a b c, fuseRel k wS wSem structural semantic a b
      → fuseRel k wS wSem structural semantic b c
      → fuseRel k wS wSem structural semantic a c := by
  intro a b c hab hbc
  unfold fuseRel at hab hbc ⊢
  rcases hab with hab | ⟨habe, hab2⟩
  · rcases hbc with hbc | ⟨hbce, _⟩
    · exact Or.inl (lt_trans hbc hab)
    · exact Or.inl (hbce ▸ hab)
  · rcases hbc with hbc | ⟨hbce, hbc2⟩
    · exact Or.inl (habe ▸ hbc)
    · refine Or.inr ⟨habe.trans hbce, ?_⟩
      rcases hab2 with hab2 | ⟨habr, habi⟩
      · rcases hbc2 with hbc2 | ⟨hbcr, _⟩
        · exact Or.inl (lt_trans hbc2 hab2)
        · exact Or.inl (hbcr ▸ hab2)
      · rcases hbc2 with hbc2 | ⟨hbcr, hbci⟩
        · exact Or.inl (habr ▸ hbc2)
        · exact Or.inr ⟨habr.trans hbcr, le_trans habi hbci⟩

/-- The spec's example structural hit list `[A, B, C]` (raw scores descending). -/
def exStructural : List Hit := [⟨"A", 3⟩, ⟨"B", 2⟩, ⟨"C", 1⟩]

/-- The spec's example semantic hit list `[B, A, D]` (raw scores descending). -/
def exSemantic : List Hit := [⟨"B", 9/10⟩, ⟨"A", 4/5⟩, ⟨"D", 7/10⟩]

/-- C2: `fuse` gives every candidate the weighted sum of `1/(k + r)` reciprocal
rank contributions and returns the candidates sorted by combined score
descending with ties broken by higher semantic raw score then by entity id
(the output is sorted under `fuseRel` and is a permutation of the candidate
pool); on the spec's example — structural `[A, B, C]`, semantic `[B, A, D]`,
`k = 60`, equal weights — `A` and `B` tie at `1/61 + 1/62` above `C` and `D`
(both at `1/63`), and the tie-break on the higher semantic raw score of `B`
yields the order `[B, A, D, C]`. -/
theorem fuse_rrf_spec :
    (∀ (k wS wSem : ℚ) (structural semantic : List Hit),
        List.Sorted (fuseRel k wS wSem structural semantic)
          (fuse k wS wSem structural semantic)
        ∧ (fuse k wS wSem structural semantic).Perm (fuseCandidates structural semantic))
    ∧ fuse 60 1 1 exStructural exSemantic = ["B", "A", "D", "C"]
    ∧ fusedScore 60 1 1 exStructural exSemantic "A" = 1/61 + 1/62
    ∧ fusedScore 60 1 1 exStructural exSemantic "A"
        = fusedScore 60 1 1 exStructural exSemantic "B"
    ∧ fusedScore 60 1 1 exStructural exSemantic "C" = 1/63
    ∧ fusedScore 60 1 1 exStructural exSemantic "C"
        = fusedScore 60 1 1 exStructural exSemantic "D"
    ∧ fusedScore 60 1 1 exStructural exSemantic "C"
        < fusedScore 60 1 1 exStructural exSemantic "B"
    ∧ semKey exSemantic "A" < semKey exSemantic "B" := by
  refine ⟨?_, ?_, ?_, ?_, ?_, ?_, ?_, ?_⟩
  · intro k wS wSem structural semantic
    haveI : IsTotal String (fuseRel k wS wSem structural semantic) :=
      ⟨fuseRel_total k wS wSem structural semantic⟩
    haveI : IsTrans String (fuseRel k wS wSem structural semantic) :=
      ⟨fuseRel_trans k wS wSem structural semantic⟩
    exact ⟨List.sorted_insertionSort _ _, List.perm_insertionSort _ _⟩
  · have hCD : ¬ fuseRel 60 1 1 exStructural exSemantic "C" "D" := by
      unfold fuseRel
      simp [fusedScore, listContribution, rankOf, semKey, semRaw, exStructural, exSemantic]
    have hBD : fuseRel 60 1 1 exStructural exSemantic "B" "D" := by
      unfold fuseRel
      simp [fusedScore, listContribution, rankOf, semKey, semRaw, exStructural, exSemantic]
      norm_num
    have hAB : ¬ fuseRel 60 1 1 exStructural exSemantic "A" "B" := by
      unfold fuseRel
      simp [fusedScore, listContribution, rankOf, semKey, semRaw, exStructural, exSemantic]
      norm_num
    have hAD : fuseRel 60 1 1 exStructural exSemantic "A" "D" := by
      unfold fuseRel
      simp [fusedScore, listContribution, rankOf, semKey, semRaw, exStructural, exSemantic]
      norm_num
    have hcand : fuseCandidates exStructural exSemantic = ["A", "B", "C", "D"] := by decide
    rw [fuse, hcand]
    simp [List.insertionSort, List.orderedInsert, hCD, hBD, hAB, hAD]
  · simp [fusedScore, listContribution, rankOf, exStructural, exSemantic] <;> norm_num
  · simp [fusedScore, listContribution, rankOf, exStructural, exSemantic] <;> norm_num
  · simp [fusedScore, listContribution, rankOf, exStructural, exSemantic] <;> norm_num
  · simp [fusedScore, listContribution, rankOf, exStructural, exSemantic] <;> norm_num
  · simp [fusedScore, listContribution, rankOf, exStructural, exSemantic] <;> norm_num
  · simp [semKey, semRaw, exSemantic] <;> norm_num

/-! ## Voyage embedding provider: `embedBatch`
(`src/semantic/providers/voyage-provider.ts`)

The `HttpEngine` collaborator is not under `src/`; it is abstracted as two
request functions: `batchCall` (a single POST whose payload is a list of
texts, parsed with `parseBatch`) and `singleCall` (a single POST for one text,
parsed with `parseSingle`). `HttpEngine.callBatch`, used by the fallback path,
issues one `singleCall` per text, modelled as `texts.mapM singleCall`. The
vector type is an arbitrary parameter `Vec`. -/

/-- Abstracted HTTP engine requests made by the Voyage provider. -/
structure EngineCalls (Vec : Type) where
  batchCall : List String → Except String (List Vec)
  singleCall : String → Except String Vec

/-- The chunk-splitting loop of `embedBatch`: consecutive slices of `size`
texts (`for (let i = 0; i < texts.length; i += size) chunks.push(texts.slice(i,
i + size))`); meaningful for `0 < size` (the JavaScript loop does not
terminate at `size = 0`). -/
def chunkList (size : Nat) (l : List α) : List (List α) :=
  match l with
  | [] => []
  | x :: xs => (x :: xs).take size :: chunkList size (xs.drop (size - 1))
termination_by l.length
decreasing_by simp [List.length_drop]; omega

/-- `VoyageProvider.embedBatch`: with `size := maxBatchSize ?? texts.length`,
if `size < texts.length` the texts are split into chunks, every chunk is sent
as its own batch request and the per-chunk results are concatenated in order
(`Promise.all` + `flat`), any chunk failure failing the whole call; otherwise
a single batch request is tried and, on failure, the call falls back to
element-wise requests. -/
def embedBatch (e : EngineCalls Vec) (maxBatchSize : Option Nat)
    (texts : List String) : Except String (List Vec) :=
  let size := maxBatchSize.getD texts.length
  if size < texts.length then
    ((chunkList size texts).mapM e.batchCall).map List.flatten
  else
    match e.batchCall texts with
    | Except.ok vs => Except.ok vs
    | Except.error _ => texts.mapM e.singleCall

/-- An engine whose batch endpoint always fails and whose single-text endpoint
always succeeds. -/
def failingBatchEngine : EngineCalls Unit :=
  { batchCall := fun _ => Except.error "batch failed"
    singleCall := fun _ => Except.ok () }

/-- C3 counterexample: for an input of 2 texts with `maxBatchSize = 1` (so the
call is chunked), a failing batch request is surfaced as the error of
`embedBatch` even though every element-wise call would succeed — the
element-wise fallback does not apply to chunked calls, refuting the claim that
it applies to every batch call including lists longer than `maxBatchSize`. -/
theorem embedBatch_chunked_no_fallback :
    embedBatch failingBatchEngine (some 1) ["a", "b"] = Except.error "batch failed"
    ∧ ["a", "b"].mapM failingBatchEngine.singleCall = Except.ok [(), ()] := by
  constructor
  · simp only [embedBatch, chunkList, failingBatchEngine]
    rfl
  · rfl

/-- C3 amended: whenever the input list is not chunked — that is,
`texts.length` is at most `maxBatchSize ?? texts.length`, which covers every
list no longer than the provider-declared `maxBatchSize` — a failed batch
request makes `embedBatch` fall back to element-wise calls; on the chunked
path (longer inputs) a chunk failure is surfaced instead. -/
theorem embedBatch_fallback (Vec : Type) (e : EngineCalls Vec) (maxBatchSize : Option Nat)
    (texts : List String) (msg : String)
    (hsize : ¬ maxBatchSize.getD texts.length < texts.length)
    (hfail : e.batchCall texts = Except.error msg) :
    embedBatch e maxBatchSize texts = texts.mapM e.singleCall := by
  unfold embedBatch
  simp only [hsize, if_false, hfail]

/-- Witness for `embedBatch_fallback`: the failing-batch engine on a 2-text
list with `maxBatchSize = 4`. -/
theorem embedBatch_fallback_witness :
    embedBatch failingBatchEngine (some 4) ["a", "b"]
      = ["a", "b"].mapM failingBatchEngine.singleCall :=
  embedBatch_fallback Unit failingBatchEngine (some 4) ["a", "b"] "batch failed"
    (by decide) rfl

theorem chunkList_flatten (size : Nat) (h : 0 < size) :
    ∀ l : List α, (chunkList size l).flatten = l
  | [] => by simp [chunkList]
  | x :: xs => by
    have ih := chunkList_flatten size h (xs.drop (size - 1))
    rw [chunkList]
    simp only [List.flatten_cons, ih]
    obtain ⟨k, rfl⟩ : ∃ k, size = k + 1 := ⟨size - 1, by omega⟩
    simpa using List.take_append_drop k xs
termination_by l => l.length
decreasing_by simp [List.length_drop]; omega

theorem chunkList_length_le (size : Nat) :
    ∀ l : List α, ∀ c ∈ chunkList size l, c.length ≤ size
  | [] => by simp [chunkList]
  | x :: xs => by
    intro c hc
    rw [chunkList] at hc
    rcases List.mem_cons.mp hc with rfl | hc
    · simp [List.length_take]
    · exact chunkList_length_le size (xs.drop (size - 1)) c hc
termination_by l => l.length
decreasing_by simp [List.length_drop]; omega

theorem mapM_loop_ok {β γ ε : Type} (f : β → Except ε γ) (g : β → γ)
    (hf : ∀ b, f b = Except.ok (g b)) :
    ∀ (l : List β) (acc : List γ),
      List.mapM.loop f l acc = Except.ok (acc.reverse ++ l.map g) := by
  intro l
  induction l with
  | nil => intro acc; simp [List.mapM.loop]; rfl
  | cons x xs ih =>
    intro acc
    simp only [List.mapM.loop, hf x]
    have h2 := ih (g x :: acc)
    simp only [List.reverse_cons, List.append_assoc, List.singleton_append] at h2
    exact h2

theorem mapM_ok {β γ ε : Type} (f : β → Except ε γ) (g : β → γ)
    (hf : ∀ b, f b = Except.ok (g b)) :
    ∀ l : List β, l.mapM f = Except.ok (l.map g) := by
  intro l
  simpa using mapM_loop_ok f g hf l []

/-- C4: for a provider that returns one vector per text (`batchCall l = ok
(l.map g)`) and a positive `maxBatchSize`, `embedBatch` splits the input into
consecutive chunks of at most `maxBatchSize` texts whose concatenation is the
input, and returns exactly the vectors a single unchunked call would produce —
one vector per input text, in input order. -/
theorem embedBatch_chunking (Vec : Type) (e : EngineCalls Vec) (g : String → Vec)
    (mb : Nat) (texts : List String) (hmb : 0 < mb)
    (hpoint : ∀ l : List String, e.batchCall l = Except.ok (l.map g)) :
    (chunkList mb texts).flatten = texts
    ∧ (∀ c ∈ chunkList mb texts, c.length ≤ mb)
    ∧ embedBatch e (some mb) texts = Except.ok (texts.map g)
    ∧ e.batchCall texts = Except.ok (texts.map g) := by
  refine ⟨chunkList_flatten mb hmb texts, chunkList_length_le mb texts, ?_, hpoint texts⟩
  unfold embedBatch
  simp only [Option.getD_some]
  by_cases h : mb < texts.length
  · simp only [if_pos h]
    rw [mapM_ok e.batchCall (List.map g) hpoint]
    simp only [Except.map]
    rw [← List.map_flatten, chunkList_flatten mb hmb]
  · simp only [if_neg h]
    rw [hpoint texts]

/-- An engine that embeds every text to its length. -/
def lengthEngine : EngineCalls Nat :=
  { batchCall := fun l => Except.ok (l.map String.length)
    singleCall := fun s => Except.ok s.length }

/-- Witness for `embedBatch_chunking`: 3 texts with `maxBatchSize = 2`. -/
theorem embedBatch_chunking_witness :
    embedBatch lengthEngine (some 2) ["a", "bb", "ccc"] = Except.ok [1, 2, 3] := by
  have h := (embedBatch_chunking Nat lengthEngine String.length 2 ["a", "bb", "ccc"]
    (by decide) (fun l => rfl)).2.2.1
  simpa using h

/-! ## Request body validation (`src/http/middleware/validation.ts`)

A Zod schema is modelled as a parse function from raw body `α` to parsed body
`β` that can fail with a `ZodError` (a list of field-level issues) or throw
some other error. `validateBody` either replaces the request body with the
parsed value and calls `next()` (the route handler then runs on the parsed
body), or aborts by passing an error to `next(err)` — in which case the route
handler is never invoked and the error middleware takes over. -/

inductive ParseOutcome (β : Type) where
  | ok (value : β)
  | zodError (issues : List String)
  | thrown (e : JsError)

/-- A Zod schema: `parse` either returns the (defaults-applied) value or
throws. -/
structure Schema (α β : Type) where
  parse : α → ParseOutcome β

/-- Result of running a validation middleware on a request. -/
inductive MwStep (β : Type) where
  | proceed (body : β)
  | abort (e : JsError)

/-- An `HttpError` instance: `new HttpError(statusCode, message, code,
details)` (its `name` is `"HttpError"`). -/
def mkHttpError (statusCode : Nat) (message : String) (code : Option String)
    (details : Option ErrDetails) : JsError :=
  { name := "HttpError", message := message, stack := ""
    statusCode := some statusCode, code := code, details := details
    isHttpError := true }

/-- `validateBody` from `src/http/middleware/validation.ts`: parse the body;
on success replace `req.body` with the parsed value and continue; on a
`ZodError` abort with `HttpError(400, "Validation failed", "VALIDATION_ERROR",
{ errors })`; rethrow anything else. -/
def validateBody (schema : Schema α β) (body : α) : MwStep β :=
  match schema.parse body with
  | ParseOutcome.ok v => MwStep.proceed v
  | ParseOutcome.zodError issues =>
      MwStep.abort (mkHttpError 400 "Validation failed" (some "VALIDATION_ERROR")
        (some (ErrDetails.zodIssues issues)))
  | ParseOutcome.thrown e => MwStep.abort e

/-- C7: a request body failing schema validation makes `validateBody` abort
(so the route handler never runs) with an error that the error middleware
turns into HTTP 400, code `VALIDATION_ERROR`, and details listing the schema's
field-level issues; a body that parses successfully reaches the handler with
`req.body` replaced by the parsed (defaults-applied) value. -/
theorem validateBody_contract (α β : Type) (schema : Schema α β) (body : α)
    (rid : Option String) (isDev : Bool) :
    (∀ issues, schema.parse body = ParseOutcome.zodError issues →
      ∃ e, validateBody schema body = MwStep.abort e
        ∧ (errorHandler e rid isDev).1 = 400
        ∧ (errorHandler e rid isDev).2.code = "VALIDATION_ERROR"
        ∧ (errorHandler e rid isDev).2.details = some (ErrDetails.zodIssues issues)
        ∧ (errorHandler e rid isDev).2.message = "Validation failed")
    ∧ (∀ v, schema.parse body = ParseOutcome.ok v →
        validateBody schema body = MwStep.proceed v) := by
  constructor
  · intro issues hp
    refine ⟨mkHttpError 400 "Validation failed" (some "VALIDATION_ERROR")
      (some (ErrDetails.zodIssues issues)), ?_, ?_, ?_, ?_, ?_⟩
    · simp [validateBody, hp]
    · simp [errorHandler, mkHttpError]
    · simp [errorHandler, mkHttpError, formatErrorResponse, jsOrStr]
    · simp [errorHandler, mkHttpError, formatErrorResponse]
    · simp [errorHandler, mkHttpError, formatErrorResponse]
  · intro v hp
    simp [validateBody, hp]

/-- A schema over natural-number bodies: zero is rejected with one issue,
other values are incremented (standing for defaults-applied parsing). -/
def exSchema : Schema Nat Nat :=
  { parse := fun n =>
      if n = 0 then ParseOutcome.zodError ["body must be positive"]
      else ParseOutcome.ok (n + 1) }

/-- Witness for `validateBody_contract`: the failing case at body `0` and the
passing case at body `3` of `exSchema`. -/
theorem validateBody_contract_witness :
    (∃ e, validateBody exSchema 0 = MwStep.abort e
      ∧ (errorHandler e (some "req_3") false).1 = 400
      ∧ (errorHandler e (some "req_3") false).2.code = "VALIDATION_ERROR"
      ∧ (errorHandler e (some "req_3") false).2.details
          = some (ErrDetails.zodIssues ["body must be positive"])
      ∧ (errorHandler e (some "req_3") false).2.message = "Validation failed")
    ∧ validateBody exSchema 3 = MwStep.proceed 4 := by
  constructor
  · exact (validateBody_contract Nat Nat exSchema 0 (some "req_3") false).1
      ["body must be positive"] rfl
  · exact (validateBody_contract Nat Nat exSchema 3 (some "req_3") false).2 4 rfl

/-! ## `parseToolResult` (`src/http/mcp-sse-server.ts`)

`ToolExecutionResult.content` is an array of `{ type, text }` items.
`JSON.parse` is abstracted as a function `String → Option α` (`none` = throws);
`JSON.parse("")` always throws, which the claims below take as a hypothesis. -/

/-- One `{ type, text }` content item of a tool execution result. -/
structure ContentItem where
  type : String
  text : String
deriving DecidableEq, Repr

/-- A tool execution result. -/
structure ToolExecutionResult where
  content : List ContentItem
deriving DecidableEq, Repr

/-- Result of `parseToolResult`: either the JSON-parsed value or the
`{ success: false, error: <message> }` fallback object. -/
inductive ParsedToolResult (α : Type) where
  | parsed (v : α)
  | fallback (error : String)
deriving DecidableEq, Repr

/-- `parseToolResult` from `src/http/mcp-sse-server.ts`: read
`result.content[0]?.text`; if it is missing or falsy (`""`), return the
"Empty response" fallback; otherwise JSON-parse it, returning the "Failed to
parse" fallback when parsing throws. -/
def parseToolResult (jsonParse : String → Option α) (r : ToolExecutionResult) :
    ParsedToolResult α :=
  match r.content.head? with
  | none => ParsedToolResult.fallback "Empty response from tool"
  | some c =>
      if c.text = "" then ParsedToolResult.fallback "Empty response from tool"
      else
        match jsonParse c.text with
        | some v => ParsedToolResult.parsed v
        | none => ParsedToolResult.fallback "Failed to parse tool response"

/-- C8: `parseToolResult` is total — it always returns either a parsed value
or a `{ success: false, error }` fallback object and never throws; it returns
the JSON-parsed value of `content[0].text` whenever that text parses, the
"Empty response" fallback on an empty content array, and a fallback whenever
the text does not parse (assuming, as for `JSON.parse`, that the empty string
does not parse). -/
theorem parseToolResult_total (α : Type) (jsonParse : String → Option α)
    (hp : jsonParse "" = none) (r : ToolExecutionResult) :
    ((∃ v, parseToolResult jsonParse r = ParsedToolResult.parsed v)
      ∨ (∃ m, parseToolResult jsonParse r = ParsedToolResult.fallback m))
    ∧ (∀ c v, r.content.head? = some c → jsonParse c.text = some v →
        parseToolResult jsonParse r = ParsedToolResult.parsed v)
    ∧ (r.content = [] →
        parseToolResult jsonParse r = ParsedToolResult.fallback "Empty response from tool")
    ∧ (∀ c, r.content.head? = some c → jsonParse c.text = none →
        ∃ m, parseToolResult jsonParse r = ParsedToolResult.fallback m) := by
  refine ⟨?_, ?_, ?_, ?_⟩
  · cases h : parseToolResult jsonParse r with
    | parsed v => exact Or.inl ⟨v, rfl⟩
    | fallback m => exact Or.inr ⟨m, rfl⟩
  · intro c v hc hv
    have htext : c.text ≠ "" := by
      intro h0
      rw [h0, hp] at hv
      cases hv
    simp [parseToolResult, hc, htext, hv]
  · intro hc
    simp [parseToolResult, hc]
  · intro c hc hv
    by_cases h0 : c.text = ""
    · exact ⟨"Empty response from tool", by simp [parseToolResult, hc, h0]⟩
    · exact ⟨"Failed to parse tool response", by simp [parseToolResult, hc, h0, hv]⟩

/-- A toy JSON parser over natural numbers: only the text `"7"` parses. -/
def exJsonParse : String → Option Nat :=
  fun s => if s = "7" then some 7 else none

/-- Witness for `parseToolResult_total`: a one-item result whose text parses,
and an empty result. -/
theorem parseToolResult_total_witness :
    parseToolResult exJsonParse ⟨[⟨"text", "7"⟩]⟩ = ParsedToolResult.parsed 7
    ∧ parseToolResult exJsonParse ⟨[]⟩
        = ParsedToolResult.fallback "Empty response from tool" := by
  constructor
  · exact (parseToolResult_total Nat exJsonParse rfl ⟨[⟨"text", "7"⟩]⟩).2.1
      ⟨"text", "7"⟩ 7 rfl rfl
  · exact (parseToolResult_total Nat exJsonParse rfl ⟨[]⟩).2.2.1 rfl

/-! ## ProjectManager (`src/core/project-manager.ts`)

The SQLite `projects` table is a list of rows; `NULL`able text columns are
`Option String`. `metadata` is stored as its canonical JSON text
(`JSON.stringify`/`JSON.parse` are the identity on it in this model). -/

/-- A row of the `projects` table. -/
structure ProjectRow where
  id : String
  name : String
  description : Option String
  created_at : Nat
  updated_at : Nat
  metadata : Option String
deriving DecidableEq, Repr

/-- An in-memory `Project` object as returned by `getProject`. -/
structure Project where
  id : String
  name : String
  description : Option String
  created_at : Nat
  updated_at : Nat
  metadata : Option String
deriving DecidableEq, Repr

/-- `ProjectManager.getProject`: `SELECT ... WHERE id = ?`, parsing `metadata`
only when the stored text is truthy (`row.metadata ? JSON.parse(row.metadata)
: undefined`). -/
def getProject (tbl : List ProjectRow) (pid : String) : Option Project :=
  match tbl.find? (fun r => r.id = pid) with
  | none => none
  | some row => some
      { id := row.id, name := row.name, description := row.description
        created_at := row.created_at, updated_at := row.updated_at
        metadata := if strTruthy row.metadata then row.metadata else none }

/-- `UpdateProjectInput`: each field is `undefined` (`none`) or supplied. -/
structure UpdateProjectInput where
  name : Option String := none
  description : Option String := none
  metadata : Option String := none
deriving DecidableEq, Repr

/-- `ProjectManager.updateProject`: look the project up; if missing return
`null`; otherwise take each supplied field (`input.x !== undefined ? input.x :
existing.x`), set `updated_at := now`, and run `UPDATE projects SET name,
description, metadata, updated_at WHERE id = ?` (description stored as
`updated.description || null`, metadata as `updated.metadata ?
JSON.stringify(updated.metadata) : null` — an object is always truthy).
Returns the updated in-memory object and the new table. -/
def updateProject (tbl : List ProjectRow) (now : Nat) (pid : String)
    (input : UpdateProjectInput) : Option Project × List ProjectRow :=
  match getProject tbl pid with
  | none => (none, tbl)
  | some existing =>
    let updated : Project :=
      { id := existing.id
        name := match input.name with | some v => v | none => existing.name
        description := match input.description with
          | some v => some v
          | none => existing.description
        created_at := existing.created_at
        updated_at := now
        metadata := match input.metadata with | some v => some v | none => existing.metadata }
    (some updated,
     tbl.map (fun r =>
       if r.id = pid then
         { r with name := updated.name
                  description := orNullStr updated.description
                  metadata := updated.metadata
                  updated_at := now }
       else r))

theorem find_row_of_nodup (tbl : List ProjectRow) (pid : String)
    (hnd : (tbl.map ProjectRow.id).Nodup) (row : ProjectRow)
    (hrow : row ∈ tbl) (hid : row.id = pid) :
    tbl.find? (fun r => r.id = pid) = some row := by
  induction tbl with
  | nil => cases hrow
  | cons h t ih =>
    have hnd' : (∀ x ∈ t, ¬ x.id = h.id) ∧ (t.map ProjectRow.id).Nodup := by
      simpa using hnd
    by_cases hh : h.id = pid
    · rw [List.find?_cons_of_pos _ (by simp [hh])]
      rcases List.mem_cons.mp hrow with rfl | hmem
      · rfl
      · exact absurd (hid.trans hh.symm) (hnd'.1 row hmem)
    · rw [List.find?_cons_of_neg _ (by simp [hh])]
      rcases List.mem_cons.mp hrow with rfl | hmem
      · exact absurd hid hh
      · exact ih hnd'.2 hmem

/-- C9: for an existing project (under unique ids and a stored row whose
nullable text columns are not the empty string, as every row written by
`ProjectManager` is), `updateProject` leaves every field whose input is
`undefined` (name, description, metadata) at its previous stored value, sets
`updated_at` to the call time, preserves `id` and `created_at` (in both the
returned object and the stored row), and leaves every other row in the table;
for a non-existent project id it returns `null` and leaves the table
unchanged. -/
theorem updateProject_spec (tbl : List ProjectRow) (now : Nat) (pid : String)
    (input : UpdateProjectInput) (hnd : (tbl.map ProjectRow.id).Nodup) :
    (getProject tbl pid = none → updateProject tbl now pid input = (none, tbl))
    ∧ ∀ row ∈ tbl, row.id = pid → row.description ≠ some "" → row.metadata ≠ some "" →
        (∃ p, (updateProject tbl now pid input).1 = some p
          ∧ p.id = row.id
          ∧ p.created_at = row.created_at
          ∧ p.updated_at = now
          ∧ (input.name = none → p.name = row.name)
          ∧ (input.description = none → p.description = row.description)
          ∧ (input.metadata = none → p.metadata = row.metadata))
        ∧ (∀ r ∈ tbl, r.id ≠ pid → r ∈ (updateProject tbl now pid input).2)
        ∧ (∀ r' ∈ (updateProject tbl now pid input).2, r'.id = pid →
            r'.id = row.id
            ∧ r'.created_at = row.created_at
            ∧ r'.updated_at = now
            ∧ (input.name = none → r'.name = row.name)
            ∧ (input.description = none → r'.description = row.description)
            ∧ (input.metadata = none → r'.metadata = row.metadata)) := by
  constructor
  · intro h
    simp [updateProject, h]
  · intro row hrow hid hdesc hmeta
    have hfind := find_row_of_nodup tbl pid hnd row hrow hid
    have hmfix : (if strTruthy row.metadata then row.metadata else none) = row.metadata := by
      cases hm : row.metadata with
      | none => simp [strTruthy]
      | some m =>
        have hne : m ≠ "" := fun h0 => hmeta (by rw [hm, h0])
        simp [strTruthy, hne]
    have hdfix : orNullStr row.description = row.description := by
      cases hd : row.description with
      | none => simp [orNullStr, strTruthy]
      | some d =>
        have hne : d ≠ "" := fun h0 => hdesc (by rw [hd, h0])
        simp [orNullStr, strTruthy, hne]
    have hget : getProject tbl pid = some
        { id := row.id, name := row.name, description := row.description
          created_at := row.created_at, updated_at := row.updated_at
          metadata := if strTruthy row.metadata then row.metadata else none } := by
      simp [getProject, hfind]
    refine ⟨?_, ?_, ?_⟩
    · refine ⟨{ id := row.id
                name := match input.name with | some v => v | none => row.name
                description := match input.description with
                  | some v => some v
                  | none => row.description
                created_at := row.created_at
                updated_at := now
                metadata := match input.metadata with
                  | some v => some v
                  | none => row.metadata }, ?_, rfl, rfl, rfl, ?_, ?_, ?_⟩
      · simp only [updateProject, hget, hmfix]
      · intro h
        simp [h]
      · intro h
        simp [h]
      · intro h
        simp [h]
    · intro r hr hne
      simp only [updateProject, hget]
      exact List.mem_map.mpr ⟨r, hr, by simp [hne]⟩
    · intro r' hr' hr'id
      simp only [updateProject, hget, hmfix] at hr'
      rcases List.mem_map.mp hr' with ⟨r, hr, hmap⟩
      by_cases hcase : r.id = pid
      · have hrr : r = row :=
          List.inj_on_of_nodup_map hnd hr hrow (hcase.trans hid.symm)
        subst hrr
        rw [if_pos hcase] at hmap
        subst hmap
        refine ⟨hid ▸ rfl, rfl, rfl, ?_, ?_, ?_⟩
        · intro h
          simp [h]
        · intro h
          simp [h, hdfix]
        · intro h
          simp [h]
      · rw [if_neg hcase] at hmap
        subst hmap
        exact absurd hr'id hcase

/-- The one-project table used to witness `updateProject_spec`. -/
def exProjects : List ProjectRow :=
  [{ id := "p1", name := "old", description := some "d", created_at := 5
     updated_at := 6, metadata := none }]

/-- Witness for `updateProject_spec`: updating project `p1` with an empty
input at time 100 keeps name, description and metadata and bumps only
`updated_at`. -/
theorem updateProject_spec_witness :
    ∃ p, (updateProject exProjects 100 "p1"
        { name := none, description := none, metadata := none }).1 = some p
      ∧ p.name = "old" ∧ p.description = some "d" ∧ p.created_at = 5 ∧ p.updated_at = 100 := by
  have h := (updateProject_spec exProjects 100 "p1"
      { name := none, description := none, metadata := none } (by decide)).2
    { id := "p1", name := "old", description := some "d", created_at := 5
      updated_at := 6, metadata := none }
    (by decide) rfl (by decide) (by decide)
  obtain ⟨⟨p, h1, _, h3, h4, h5, h6, _⟩, _, _⟩ := h
  exact ⟨p, h1, h5 rfl, h6 rfl, h3, h4⟩

/-! ## `removeRepository` and SQLite `LIKE`

`removeRepository` cleans up `entities`/`files` rows with `file_path LIKE
'<repository_path>%'`. SQLite `LIKE` is case-insensitive for the ASCII range
and treats `%`/`_` in the pattern (here: in the repository path itself) as
wildcards, so it is not literal prefix matching. -/

/-- ASCII lower-casing (SQLite `LIKE` folds only A–Z). -/
def asciiLower (c : Char) : Char :=
  if 'A' ≤ c ∧ c ≤ 'Z' then Char.ofNat (c.toNat + 32) else c

/-- SQLite `LIKE` matching over character lists: `%` matches any sequence,
`_` matches exactly one character, any other pattern character matches
ASCII-case-insensitively. -/
def likeMatch : List Char → List Char → Bool
  | [], s => s.isEmpty
  | p :: ps, s =>
    if p = '%' then s.tails.any (fun t => likeMatch ps t)
    else
      match s with
      | [] => false
      | c :: s' =>
        if p = '_' then likeMatch ps s'
        else asciiLower p = asciiLower c && likeMatch ps s'

/-- SQLite `expr LIKE pattern` (default, no ESCAPE clause). -/
def sqliteLike (pattern s : String) : Bool :=
  likeMatch pattern.data s.data

theorem likeMatch_append_percent :
    ∀ (p rest : List Char), likeMatch (p ++ ['%']) (p ++ rest) = true := by
  intro p
  induction p with
  | nil =>
    intro rest
    simp only [List.nil_append, likeMatch, if_pos rfl]
    exact List.any_eq_true.mpr ⟨[], (List.mem_tails [] rest).mpr List.nil_suffix, rfl⟩
  | cons c p' ih =>
    intro rest
    by_cases hc : c = '%'
    · subst hc
      simp only [List.cons_append, likeMatch, if_pos rfl]
      exact List.any_eq_true.mpr
        ⟨p' ++ rest, (List.mem_tails (p' ++ rest) ('%' :: (p' ++ rest))).mpr
          (List.suffix_cons '%' (p' ++ rest)), ih rest⟩
    · by_cases hu : c = '_'
      · subst hu
        simp only [List.cons_append, likeMatch,
          if_neg (show ¬ (('_' : Char) = '%') by decide), if_pos rfl]
        exact ih rest
      · simp only [List.cons_append, likeMatch, if_neg hc, if_neg hu]
        simp [ih rest]

/-- A string that literally begins with `pre` always matches the `LIKE`
pattern `pre ++ "%"`. -/
theorem sqliteLike_of_append (pre rest : String) :
    sqliteLike (pre ++ "%") (pre ++ rest) = true := by
  unfold sqliteLike
  rw [String.data_append, String.data_append]
  exact likeMatch_append_percent pre.data rest.data

/-- A row of the `project_repositories` table. -/
structure RepoRow where
  id : String
  project_id : String
  repository_path : String
  repository_name : String
  added_at : Nat
  last_indexed : Option Nat
  metadata : Option String
deriving DecidableEq, Repr

/-- A row of the `entities` table (the columns `removeRepository` reads). -/
structure EntityRow where
  id : String
  project_id : String
  file_path : String
deriving DecidableEq, Repr

/-- A row of the `files` table (the columns `removeRepository` reads). -/
structure FileRow where
  project_id : String
  path : String
deriving DecidableEq, Repr

/-- The tables `removeRepository` touches. -/
structure Store where
  project_repositories : List RepoRow
  entities : List EntityRow
  files : List FileRow
deriving DecidableEq, Repr

/-- `ProjectManager.removeRepository`: look the repository up by id (returning
`false` untouched when absent); delete its row; if any row was deleted, also
delete every `entities` row with `project_id = ? AND file_path LIKE
'<repository_path>%'` and every `files` row with `project_id = ? AND path LIKE
'<repository_path>%'`, and return `true`. -/
def removeRepository (st : Store) (rid : String) : Bool × Store :=
  match st.project_repositories.find? (fun r => r.id = rid) with
  | none => (false, st)
  | some repo =>
    let repos' := st.project_repositories.filter (fun r => r.id ≠ rid)
    let changes := st.project_repositories.length - repos'.length
    if 0 < changes then
      (true,
       { project_repositories := repos'
         entities := st.entities.filter (fun e =>
           ¬ (e.project_id = repo.project_id
              ∧ sqliteLike (repo.repository_path ++ "%") e.file_path = true))
         files := st.files.filter (fun f =>
           ¬ (f.project_id = repo.project_id
              ∧ sqliteLike (repo.repository_path ++ "%") f.path = true)) })
    else (false, { st with project_repositories := repos' })

/-- A store with one repository at path `/A` and one entity of the same
project whose file path starts with the lower-case `/a`. -/
def exStore : Store :=
  { project_repositories :=
      [{ id := "r1", project_id := "p1", repository_path := "/A"
         repository_name := "A", added_at := 0, last_indexed := none, metadata := none }]
    entities := [{ id := "e1", project_id := "p1", file_path := "/a/f.ts" }]
    files := [] }

/-- C10 counterexample: removing repository `r1` (path `/A`) also deletes the
entity at `/a/f.ts` — SQLite `LIKE` is ASCII-case-insensitive — although
`/a/f.ts` does not begin with `/A`, so the claim that exactly the rows whose
path begins with the repository path are deleted is false at this input. -/
theorem removeRepository_like_counterexample :
    (removeRepository exStore "r1").1 = true
    ∧ (removeRepository exStore "r1").2.entities = []
    ∧ ¬ ∃ rest : String, "/a/f.ts" = "/A" ++ rest := by
  refine ⟨by decide, by decide, ?_⟩
  rintro ⟨rest, h⟩
  have hdata : ("/A".data ++ rest.data) = "/a/f.ts".data := by
    rw [← String.data_append, ← h]
  have hpre : ("/A".data <+: "/a/f.ts".data) := ⟨rest.data, hdata⟩
  revert hpre
  decide

/-- C10 amended: `removeRepository` returns `false` and leaves the store
unchanged when the repository id does not exist; when it exists it deletes the
repository row and every `entities`/`files` row of the same project whose path
matches the SQL `LIKE` pattern `repository_path || '%'` — a superset of the
rows whose path literally begins with the repository path, since `LIKE` is
ASCII-case-insensitive and treats `%`/`_` in the repository path as
wildcards — and returns `true`. -/
theorem removeRepository_spec (st : Store) (rid : String) :
    (st.project_repositories.find? (fun r => r.id = rid) = none →
      removeRepository st rid = (false, st))
    ∧ ∀ repo, st.project_repositories.find? (fun r => r.id = rid) = some repo →
        (removeRepository st rid).1 = true
        ∧ (removeRepository st rid).2.project_repositories
            = st.project_repositories.filter (fun r => r.id ≠ rid)
        ∧ (∀ e, e ∈ (removeRepository st rid).2.entities ↔
            e ∈ st.entities ∧ ¬ (e.project_id = repo.project_id
              ∧ sqliteLike (repo.repository_path ++ "%") e.file_path = true))
        ∧ (∀ f, f ∈ (removeRepository st rid).2.files ↔
            f ∈ st.files ∧ ¬ (f.project_id = repo.project_id
              ∧ sqliteLike (repo.repository_path ++ "%") f.path = true))
        ∧ (∀ e ∈ st.entities, e.project_id = repo.project_id →
            (∃ rest, e.file_path = repo.repository_path ++ rest) →
            e ∉ (removeRepository st rid).2.entities)
        ∧ (∀ f ∈ st.files, f.project_id = repo.project_id →
            (∃ rest, f.path = repo.repository_path ++ rest) →
            f ∉ (removeRepository st rid).2.files) := by
  constructor
  · intro h
    simp [removeRepository, h]
  · intro repo hfind
    have hmem : repo ∈ st.project_repositories := List.mem_of_find?_eq_some hfind
    have hrid : repo.id = rid := by
      have := List.find?_some hfind
      simpa using this
    have hlt : (st.project_repositories.filter (fun r => r.id ≠ rid)).length
        < st.project_repositories.length :=
      List.length_filter_lt_length_iff_exists.mpr ⟨repo, hmem, by simp [hrid]⟩
    have hpos : 0 < st.project_repositories.length
        - (st.project_repositories.filter (fun r => r.id ≠ rid)).length := by
      omega
    have heq : removeRepository st rid =
        (true,
         { project_repositories := st.project_repositories.filter (fun r => r.id ≠ rid)
           entities := st.entities.filter (fun e =>
             ¬ (e.project_id = repo.project_id
                ∧ sqliteLike (repo.repository_path ++ "%") e.file_path = true))
           files := st.files.filter (fun f =>
             ¬ (f.project_id = repo.project_id
                ∧ sqliteLike (repo.repository_path ++ "%") f.path = true)) }) := by
      unfold removeRepository
      rw [hfind]
      simp only [if_pos hpos]
    rw [heq]
    refine ⟨rfl, rfl, ?_, ?_, ?_, ?_⟩
    · intro e
      simp only [List.mem_filter, decide_eq_true_eq]
    · intro f
      simp only [List.mem_filter, decide_eq_true_eq]
    · rintro e he hproj ⟨rest, hrest⟩ habs
      have hlike : sqliteLike (repo.repository_path ++ "%") e.file_path = true := by
        rw [hrest]
        exact sqliteLike_of_append repo.repository_path rest
      have := (List.mem_filter.mp habs).2
      simp only [decide_eq_true_eq] at this
      exact this ⟨hproj, hlike⟩
    · rintro f hf hproj ⟨rest, hrest⟩ habs
      have hlike : sqliteLike (repo.repository_path ++ "%") f.path = true := by
        rw [hrest]
        exact sqliteLike_of_append repo.repository_path rest
      have := (List.mem_filter.mp habs).2
      simp only [decide_eq_true_eq] at this
      exact this ⟨hproj, hlike⟩

/-- Witness for `removeRepository_spec`: removing the (existing) repository
`r1` from the example store succeeds and empties its entities. -/
theorem removeRepository_spec_witness :
    (removeRepository exStore "r1").1 = true
    ∧ removeRepository exStore "nope" = (false, exStore) := by
  constructor
  · exact ((removeRepository_spec exStore "r1").2
      { id := "r1", project_id := "p1", repository_path := "/A"
        repository_name := "A", added_at := 0, last_indexed := none, metadata := none }
      (by decide)).1
  · exact (removeRepository_spec exStore "nope").1 (by decide)
